import Mathlib

/-!
Verification of the cargo-rpl front-end (src/main.rs).

The embedding models Rust strings as Lean `String`s and the process
argument vector as a `List String`.  The iterator loop in `RplCmd::new`
becomes the structural recursion `buildScan`; the post-pass and the
construction of the command mirror the source line by line.  The early
flag routing in `main` becomes `mainAction`, and exit-status propagation
in `process`/`main` becomes `processResult`/`mainExitCode`.
-/

/-- The result record of `RplCmd::new` in src/main.rs: the cargo
subcommand, the arguments forwarded to cargo, and the arguments forwarded
to the analysis driver through the environment. -/
structure RplCmd where
  cargo_subcommand : String
  args : List String
  rpl_args : List String
deriving DecidableEq

/-- State of the `for arg in old_args.by_ref()` loop in `RplCmd::new`:
the current subcommand, the accumulated cargo args, the accumulated rpl
args, and the tokens left in the iterator when the loop stopped. -/
structure ScanRes where
  sub : String
  args : List String
  rplArgs : List String
  rest : List String
deriving DecidableEq

/-- The loop body of `RplCmd::new` (src/main.rs lines 62-77): `--fix`
switches the subcommand and is consumed, `--no-deps` is pushed to
`rpl_args` and consumed, `--` breaks the loop leaving the remaining
iterator, and every other token is pushed to `args`. -/
def buildScan : String → List String → List String → List String → ScanRes
  | sub, args, rplArgs, [] => ⟨sub, args, rplArgs, []⟩
  | sub, args, rplArgs, a :: old =>
    if a = "--fix" then buildScan "fix" args rplArgs old
    else if a = "--no-deps" then buildScan sub args (rplArgs ++ ["--no-deps"]) old
    else if a = "--" then ⟨sub, args, rplArgs, old⟩
    else buildScan sub (args ++ [a]) rplArgs old

/-- `RplCmd::new` (src/main.rs lines 54-89): run the scan loop starting
from subcommand "check", append the tokens left after a `--` break to
`rpl_args`, and synthesize one `--no-deps` when the subcommand is "fix"
and `rpl_args` does not already contain it. -/
def RplCmd.new (old_args : List String) : RplCmd :=
  let r := buildScan "check" [] [] old_args
  let rplArgs1 := r.rplArgs ++ r.rest
  let rplArgs2 :=
    if r.sub = "fix" ∧ ¬ (rplArgs1.any fun arg => arg == "--no-deps") then
      rplArgs1 ++ ["--no-deps"]
    else rplArgs1
  ⟨r.sub, r.args, rplArgs2⟩

/-- The tokens strictly before the first `--` separator (the tokens the
scan loop actually consumes and classifies). -/
def preSep : List String → List String
  | [] => []
  | a :: old => if a = "--" then [] else a :: preSep old

/-- The tokens strictly after the first `--` separator (empty when there
is no separator). -/
def postSep : List String → List String
  | [] => []
  | a :: old => if a = "--" then old else postSep old

/-- The subcommand `RplCmd::new` ends up with: "fix" exactly when a
`--fix` token occurs before the first separator. -/
def subcommandOf (l : List String) : String :=
  if "--fix" ∈ preSep l then "fix" else "check"

/-- The orchestrator (cargo) argument list: the pre-separator tokens that
are neither `--fix` nor `--no-deps`. -/
def orchArgsOf (l : List String) : List String :=
  (preSep l).filter fun a => ¬ (a = "--fix" ∨ a = "--no-deps")

/-- The `--no-deps` occurrences before the separator, each forwarded to
the analysis args. -/
def preNoDepsOf (l : List String) : List String :=
  (preSep l).filter fun a => a = "--no-deps"

/-- The analysis argument list before the synthesized default: explicit
pre-separator `--no-deps` occurrences followed by everything after the
separator. -/
def rplCoreOf (l : List String) : List String :=
  preNoDepsOf l ++ postSep l

/-- The possibly-synthesized trailing `--no-deps`: present exactly when
the subcommand is "fix" and no `--no-deps` is already present. -/
def synthOf (l : List String) : List String :=
  if subcommandOf l = "fix" ∧ "--no-deps" ∉ rplCoreOf l then ["--no-deps"] else []

/-- `make_ascii_lowercase` on the lint name in `main` (src/main.rs line
35): every ASCII uppercase letter is replaced by its lowercase
counterpart, all other characters are unchanged. -/
def asciiLowercase (s : String) : String :=
  ⟨s.data.map fun c => if 'A' ≤ c ∧ c ≤ 'Z' then Char.ofNat (c.toNat + 32) else c⟩

/-- The observable action `main` (src/main.rs lines 21-45) decides on:
print the help text, print the version text, note a normalized lint name
(the `--explain` path), or build an `RplCmd` and spawn the subprocess.
The `--explain`-without-lint fallback prints the same help text, so it is
the `showHelp` action. -/
inductive MainAction where
  | showHelp
  | showVersion
  | explainLint (lint : String)
  | build (cmd : RplCmd)
deriving DecidableEq

/-- The first `env::args().any(...)` test in `main`: a help flag anywhere
in the raw argument vector. -/
def hasHelpFlag (argv : List String) : Bool :=
  argv.any fun a => a == "--help" || a == "-h"

/-- The second `env::args().any(...)` test in `main`: a version flag
anywhere in the raw argument vector. -/
def hasVersionFlag (argv : List String) : Bool :=
  argv.any fun a => a == "--version" || a == "-V"

/-- `main` (src/main.rs lines 21-45): check help flags, then version
flags, then the first `--explain` position (its successor token, when
present, is lowercased; otherwise help is shown), and only if none of
these fire build the command from the argument vector with the first two
entries skipped. -/
def mainAction (argv : List String) : MainAction :=
  if hasHelpFlag argv then .showHelp
  else if hasVersionFlag argv then .showVersion
  else
    match argv.findIdx? (fun a => a == "--explain") with
    | some pos =>
      match argv[pos + 1]? with
      | some lint => .explainLint (asciiLowercase lint)
      | none => .showHelp
    | none => .build (RplCmd.new (argv.drop 2))

/-- The termination status of the spawned subprocess: `code = some c`
when an exit code is available, `code = none` when the process terminated
abnormally (e.g. by signal). -/
structure ExitStatus where
  code : Option Int
deriving DecidableEq

/-- `ExitStatus::success`: the process exited with code 0. -/
def ExitStatus.success (st : ExitStatus) : Bool :=
  st.code == some 0

/-- `process` (src/main.rs lines 119-138) after the subprocess has been
awaited: `Ok` on success, otherwise `Err` with the subprocess's exit code
or the sentinel -1 when no code is available. -/
def processResult (st : ExitStatus) : Except Int Unit :=
  if st.success then Except.ok () else Except.error (st.code.getD (-1))

/-- The exit code of the whole run: 0 on every early-exit path and on
subprocess success, otherwise the code carried by `Err` via
`process::exit` (src/main.rs lines 42-44). -/
def mainExitCode (argv : List String) (st : ExitStatus) : Int :=
  match mainAction argv with
  | .build _ =>
    match processResult st with
    | .ok _ => 0
    | .error c => c
  | _ => 0

/-- The run spawns a subprocess: the Router fell through to the
Invocation Builder. -/
def spawnsCmd (argv : List String) : Prop :=
  ∃ cmd, mainAction argv = .build cmd

/-- The `fold` in `RplCmd::into_std_cmd` (src/main.rs lines 103-116):
every analysis argument is followed by the private separator token
`__RPL_HACKERY__` in the single `RPL_ARGS` environment string. -/
def serializeRplArgs (rpl_args : List String) : String :=
  rpl_args.foldl (fun s arg => s ++ arg ++ "__RPL_HACKERY__") ""

/-- The separator token of `into_std_cmd`, as a character list. -/
def sepTok : List Char :=
  ['_', '_', 'R', 'P', 'L', '_', 'H', 'A', 'C', 'K', 'E', 'R', 'Y', '_', '_']

/-- `serializeRplArgs` at the character level (Rust strings are character
sequences): the same fold over `List Char`. -/
def serializeChars (l : List (List Char)) : List Char :=
  l.foldl (fun s arg => s ++ arg ++ sepTok) []

/-- A decoder for the serialized string: repeatedly take the maximal
run of non-underscore characters as the next entry and skip the 15
separator characters that follow it.  It reconstructs any serialized
list whose entries are non-empty and underscore-free. -/
def decodeRpl (s : List Char) : List (List Char) :=
  if h : s = [] then []
  else
    (s.takeWhile fun c => ¬ c = '_')
      :: decodeRpl (s.drop ((s.takeWhile fun c => ¬ c = '_').length + 15))
termination_by s.length
decreasing_by
  simp only [List.length_drop]
  exact Nat.sub_lt (List.length_pos.mpr h) (by omega)

/-- `decodeRpl` lifted back to strings. -/
def decodeRplStr (s : String) : List String :=
  (decodeRpl s.data).map String.mk

/-- The validity condition of the serialization claim: every entry is
non-empty and does not contain the separator token as a substring. -/
def sepFreeArgs (l : List String) : Prop :=
  ∀ e ∈ l, e ≠ "" ∧ ¬ (sepTok <:+: e.data)

/-- The serialization claim: some reconstruction function recovers every
valid analysis argument list from its serialized `RPL_ARGS` string. -/
def serializationInvertible : Prop :=
  ∃ g : String → List String, ∀ l, sepFreeArgs l → g (serializeRplArgs l) = l

theorem buildScan_spec (l : List String) : ∀ sub args rplArgs,
    buildScan sub args rplArgs l =
      ⟨if "--fix" ∈ preSep l then "fix" else sub,
       args ++ (preSep l).filter (fun a => ¬ (a = "--fix" ∨ a = "--no-deps")),
       rplArgs ++ (preSep l).filter (fun a => a = "--no-deps"),
       postSep l⟩ := by
  induction l with
  | nil =>
    intro sub args rplArgs
    simp [buildScan, preSep, postSep]
  | cons a old ih =>
    intro sub args rplArgs
    by_cases hfix : a = "--fix"
    · subst hfix
      simp +decide [buildScan, preSep, postSep, ih, List.filter_cons]
    · by_cases hnd : a = "--no-deps"
      · subst hnd
        simp +decide [buildScan, preSep, postSep, ih, List.filter_cons]
      · by_cases hsep : a = "--"
        · subst hsep
          simp [buildScan, preSep, postSep, hfix, hnd]
        · have hfix2 : ¬ ("--fix" = a) := fun hh => hfix hh.symm
          simp [buildScan, preSep, postSep, hfix, hnd, hsep, hfix2, ih, List.filter_cons]

theorem RplCmd.new_spec (l : List String) :
    RplCmd.new l = ⟨subcommandOf l, orchArgsOf l, rplCoreOf l ++ synthOf l⟩ := by
  unfold RplCmd.new
  rw [buildScan_spec]
  simp only [List.nil_append]
  by_cases hfix : "--fix" ∈ preSep l
  · simp [subcommandOf, orchArgsOf, rplCoreOf, preNoDepsOf, synthOf, hfix,
      List.any_eq_true, beq_iff_eq]
    by_cases hc : "--no-deps" ∉ preSep l ∧ "--no-deps" ∉ postSep l
    · simp [hc]
    · simp [hc]
  · simp +decide [subcommandOf, orchArgsOf, rplCoreOf, preNoDepsOf, synthOf, hfix,
      List.any_eq_true, beq_iff_eq]

theorem sep_decomp (l : List String) :
    (("--" : String) ∈ l ∧ l = preSep l ++ "--" :: postSep l) ∨
    (("--" : String) ∉ l ∧ preSep l = l ∧ postSep l = []) := by
  induction l with
  | nil => right; simp [preSep, postSep]
  | cons a old ih =>
    by_cases h : a = "--"
    · left
      subst h
      simp [preSep, postSep]
    · rcases ih with ⟨h1, h2⟩ | ⟨h1, h2, h3⟩
      · left
        refine ⟨List.mem_cons_of_mem _ h1, ?_⟩
        rw [preSep, postSep, if_neg h, if_neg h, List.cons_append]
        exact congrArg _ h2
      · right
        refine ⟨?_, ?_, ?_⟩
        · exact fun hc => (List.mem_cons.mp hc).elim (fun h4 => h h4.symm) h1
        · rw [preSep, if_neg h, h2]
        · rw [postSep, if_neg h, h3]

theorem sep_not_mem_preSep (l : List String) : ("--" : String) ∉ preSep l := by
  induction l with
  | nil => simp [preSep]
  | cons a old ih =>
    by_cases h : a = "--"
    · simp [preSep, h]
    · simp [preSep, h, ih]
      exact fun hc => h hc.symm

theorem count_filter_eq (p : String → Bool) (t : String) (l : List String) :
    (l.filter p).count t = if p t then l.count t else 0 := by
  by_cases hp : p t
  · rw [List.count_filter hp, if_pos hp]
  · rw [if_neg hp]
    refine List.count_eq_zero.mpr fun hmem => ?_
    exact hp (List.of_mem_filter hmem)

theorem synth_cases (l : List String) : synthOf l = [] ∨ synthOf l = ["--no-deps"] := by
  unfold synthOf
  by_cases h : subcommandOf l = "fix" ∧ "--no-deps" ∉ rplCoreOf l
  · right; rw [if_pos h]
  · left; rw [if_neg h]

theorem synth_count_ne (l : List String) (t : String) (h : ¬ t = "--no-deps") :
    (synthOf l).count t = 0 := by
  rcases synth_cases l with hs | hs <;> rw [hs]
  · rfl
  · exact List.count_eq_zero.mpr (by simpa using h)

theorem synth_count_le (l : List String) (t : String) : (synthOf l).count t ≤ 1 := by
  rcases synth_cases l with hs | hs <;> rw [hs]
  · exact Nat.zero_le 1
  · exact (List.count_le_length t ["--no-deps"]).trans (by simp)

theorem count_split (l : List String) (t : String) :
    l.count t = (preSep l).count t + (if t = "--" ∧ "--" ∈ l then 1 else 0)
      + (postSep l).count t := by
  rcases sep_decomp l with ⟨h1, h2⟩ | ⟨h1, h2, h3⟩
  · conv_lhs => rw [h2]
    rw [List.count_append, List.count_cons]
    by_cases ht : t = "--"
    · subst ht
      simp [h1]
      omega
    · have : ¬ (("--" : String) == t) = true := by
        simp
        exact fun hc => ht hc.symm
      simp [ht, this]
  · rw [h2, h3]
    have : ¬ (t = "--" ∧ ("--" : String) ∈ l) := fun hc => h1 hc.2
    simp [this]

theorem count_orch (l : List String) (t : String) :
    (orchArgsOf l).count t
      = if ¬ (t = "--fix" ∨ t = "--no-deps") then (preSep l).count t else 0 := by
  unfold orchArgsOf
  rw [count_filter_eq]
  simp

theorem count_preNoDeps (l : List String) (t : String) :
    (preNoDepsOf l).count t = if t = "--no-deps" then (preSep l).count t else 0 := by
  unfold preNoDepsOf
  rw [count_filter_eq]
  simp

/-- Claim C1: every input token of the Invocation Builder lands in exactly
one destination — subcommand selection (pre-separator `--fix` tokens),
orchestrator args, analysis args (pre-separator `--no-deps` tokens and all
post-separator tokens), or the consumed separator itself — with no token
duplicated or dropped, except for at most one synthesized `--no-deps`
counted in addition on the input side. -/
theorem C1_token_accounting (l : List String) (t : String) :
    ∃ s : Nat, s ≤ 1 ∧ (s ≠ 0 → t = "--no-deps") ∧
      (if t = "--fix" then (preSep l).count "--fix" else 0)
        + ((RplCmd.new l).args.count t)
        + ((RplCmd.new l).rpl_args.count t)
        + (if t = "--" ∧ ("--" : String) ∈ l then 1 else 0)
      = l.count t + s := by
  refine ⟨(synthOf l).count t, synth_count_le l t, ?_, ?_⟩
  · intro hs
    by_contra hne
    exact hs (synth_count_ne l t hne)
  · rw [RplCmd.new_spec]
    dsimp only
    have hr : (rplCoreOf l ++ synthOf l).count t
        = (preNoDepsOf l).count t + (postSep l).count t + (synthOf l).count t := by
      rw [List.count_append, rplCoreOf, List.count_append]
    rw [hr, count_orch, count_preNoDeps, count_split l t]
    generalize (if t = "--" ∧ ("--" : String) ∈ l then 1 else 0) = k
    by_cases h1 : t = "--fix"
    · subst h1
      simp +decide
      omega
    · by_cases h2 : t = "--no-deps"
      · subst h2
        simp +decide
        omega
      · simp [h1, h2]
        omega

theorem mem_of_mem_preSep {l : List String} {t : String} (h : t ∈ preSep l) : t ∈ l := by
  rcases sep_decomp l with ⟨_, h2⟩ | ⟨_, h2, _⟩
  · rw [h2]
    exact List.mem_append_left _ h
  · rw [← h2]
    exact h

theorem mem_of_mem_postSep {l : List String} {t : String} (h : t ∈ postSep l) : t ∈ l := by
  rcases sep_decomp l with ⟨_, h2⟩ | ⟨_, _, h3⟩
  · rw [h2]
    exact List.mem_append_right _ (List.mem_cons_of_mem _ h)
  · rw [h3] at h
    exact absurd h (List.not_mem_nil t)

theorem preSep_append_sep (pre post : List String) (h : ("--" : String) ∉ pre) :
    preSep (pre ++ "--" :: post) = pre := by
  induction pre with
  | nil => simp [preSep]
  | cons a old ih =>
    have ha : ¬ a = "--" := fun hc => h (hc ▸ List.mem_cons_self a old)
    rw [List.cons_append, preSep, if_neg ha, ih fun hc => h (List.mem_cons_of_mem a hc)]

theorem postSep_append_sep (pre post : List String) (h : ("--" : String) ∉ pre) :
    postSep (pre ++ "--" :: post) = post := by
  induction pre with
  | nil => simp [postSep]
  | cons a old ih =>
    have ha : ¬ a = "--" := fun hc => h (hc ▸ List.mem_cons_self a old)
    rw [List.cons_append, postSep, if_neg ha, ih fun hc => h (List.mem_cons_of_mem a hc)]

/-- Claim C10: the analysis argument list has the fixed internal order:
explicit pre-separator `--no-deps` occurrences (one entry per occurrence,
in input order), then the post-separator tokens in input order, then the
synthesized `--no-deps` last if and only if one is added; duplicates of an
explicit pre-separator `--no-deps` are all kept. -/
theorem C10_rpl_args_order (l : List String) :
    (RplCmd.new l).rpl_args
        = ((preSep l).filter fun a => a = "--no-deps") ++ postSep l ++ synthOf l
      ∧ (synthOf l = [] ∨ synthOf l = ["--no-deps"])
      ∧ (synthOf l = ["--no-deps"] ↔
          ((RplCmd.new l).cargo_subcommand = "fix"
            ∧ ("--no-deps" : String) ∉ preNoDepsOf l ++ postSep l))
      ∧ (RplCmd.new l).rpl_args.count "--no-deps"
          = (preSep l).count "--no-deps" + (postSep l).count "--no-deps"
            + (synthOf l).length := by
  refine ⟨?_, synth_cases l, ?_, ?_⟩
  · rw [RplCmd.new_spec]
    dsimp only
    rw [rplCoreOf, preNoDepsOf, List.append_assoc]
  · rw [RplCmd.new_spec]
    dsimp only
    unfold synthOf rplCoreOf
    by_cases hc : subcommandOf l = "fix" ∧ ("--no-deps" : String) ∉ preNoDepsOf l ++ postSep l
    · simp [hc]
    · rw [if_neg hc]
      simp only [iff_false_intro hc, iff_false]
      intro habs
      exact List.noConfusion habs
  · rw [RplCmd.new_spec]
    dsimp only
    rw [List.count_append, rplCoreOf, List.count_append, count_preNoDeps, if_pos rfl]
    rcases synth_cases l with hs | hs <;> rw [hs] <;> simp

/-- Claim C3 counterexample: the input contains `--fix` (after the
separator), yet the selected subcommand is "check", not "fix". -/
theorem C3_counterexample :
    ("--fix" : String) ∈ (["--", "--fix", "x"] : List String)
      ∧ (RplCmd.new ["--", "--fix", "x"]).cargo_subcommand = "check"
      ∧ ¬ (RplCmd.new ["--", "--fix", "x"]).cargo_subcommand = "fix" := by
  decide

/-- Claim C3 (amended): the Builder selects the "fix" subcommand exactly
when a `--fix` token occurs before the first `--` separator (anywhere in
the list when no separator is present); otherwise the subcommand is the
default "check". -/
theorem C3_amended_subcommand (l : List String) :
    (RplCmd.new l).cargo_subcommand = if "--fix" ∈ preSep l then "fix" else "check" := by
  rw [RplCmd.new_spec]
  rfl

/-- Claim C2 counterexample: the input contains `--fix` (only after the
separator) and no `--no-deps` anywhere, yet `rpl_args` contains zero
`--no-deps` entries rather than exactly one. -/
theorem C2_counterexample :
    ("--fix" : String) ∈ (["--", "--fix"] : List String)
      ∧ ("--no-deps" : String) ∉ (["--", "--fix"] : List String)
      ∧ (RplCmd.new ["--", "--fix"]).rpl_args.count "--no-deps" = 0
      ∧ ¬ (RplCmd.new ["--", "--fix"]).rpl_args.count "--no-deps" = 1 := by
  decide

/-- Claim C2 (amended): if `--fix` occurs before the first separator and
no `--no-deps` token occurs anywhere, `analysis_args` contains exactly
one `--no-deps` entry; and for `--fix -- --no-deps` the explicit
post-separator entry suppresses the synthesized one, again leaving
exactly one. -/
theorem C2_amended_fix_implies_no_deps :
    (∀ l : List String, "--fix" ∈ preSep l → ("--no-deps" : String) ∉ l →
      (RplCmd.new l).rpl_args.count "--no-deps" = 1)
    ∧ (RplCmd.new ["--fix", "--", "--no-deps"]).rpl_args.count "--no-deps" = 1 := by
  constructor
  · intro l hfix hnd
    have hcore : ("--no-deps" : String) ∉ rplCoreOf l := by
      intro hc
      rcases List.mem_append.mp hc with hm | hm
      · exact hnd (mem_of_mem_preSep (List.mem_of_mem_filter hm))
      · exact hnd (mem_of_mem_postSep hm)
    have hsub : subcommandOf l = "fix" := by
      unfold subcommandOf
      rw [if_pos hfix]
    have hs : synthOf l = ["--no-deps"] := by
      unfold synthOf
      rw [if_pos ⟨hsub, hcore⟩]
    rw [RplCmd.new_spec]
    dsimp only
    rw [List.count_append, List.count_eq_zero.mpr hcore, hs]
    simp
  · decide

/-- Claim C2 amended witness. -/
theorem C2_amended_witness :
    (RplCmd.new ["--fix", "x"]).rpl_args.count "--no-deps" = 1 :=
  C2_amended_fix_implies_no_deps.1 ["--fix", "x"] (by decide) (by decide)

/-- Claim C4 counterexample: the raw argument list has `--help` only
after the `--` separator, yet the Router interprets it, prints help, and
no invocation is built at all — the post-separator token is inspected
for flag meaning and is not appended to any `analysis_args`. -/
theorem C4_counterexample :
    mainAction ["cargo", "rpl", "--", "--help"] = MainAction.showHelp
      ∧ ¬ spawnsCmd ["cargo", "rpl", "--", "--help"] := by
  refine ⟨by decide, ?_⟩
  rintro ⟨cmd, hc⟩
  rw [show mainAction ["cargo", "rpl", "--", "--help"] = MainAction.showHelp by decide] at hc
  exact MainAction.noConfusion hc

/-- Claim C4 (amended): the Invocation Builder never inspects tokens
after the first `--` for subcommand selection or orchestrator routing —
the subcommand and the orchestrator args are those of the pre-separator
tokens alone — and it appends every post-separator token verbatim, in
original order, to `analysis_args` (before the possibly-synthesized
`--no-deps`).  The Router's help/version/explain scan and the Builder's
duplicate-`--no-deps` check, however, do read post-separator tokens. -/
theorem C4_amended_post_separator_passthrough (pre post : List String)
    (h : ("--" : String) ∉ pre) :
    (RplCmd.new (pre ++ "--" :: post)).cargo_subcommand = (RplCmd.new pre).cargo_subcommand
      ∧ (RplCmd.new (pre ++ "--" :: post)).args = (RplCmd.new pre).args
      ∧ (RplCmd.new (pre ++ "--" :: post)).rpl_args
          = preNoDepsOf pre ++ post ++ synthOf (pre ++ "--" :: post)
      ∧ (synthOf (pre ++ "--" :: post) = [] ∨ synthOf (pre ++ "--" :: post) = ["--no-deps"]) := by
  have hpre : preSep (pre ++ "--" :: post) = pre := preSep_append_sep pre post h
  have hpre2 : preSep pre = pre := by
    rcases sep_decomp pre with ⟨h1, _⟩ | ⟨_, h2, _⟩
    · exact absurd h1 h
    · exact h2
  have hpost : postSep (pre ++ "--" :: post) = post := postSep_append_sep pre post h
  refine ⟨?_, ?_, ?_, synth_cases _⟩
  · rw [RplCmd.new_spec, RplCmd.new_spec]
    dsimp only
    unfold subcommandOf
    rw [hpre, hpre2]
  · rw [RplCmd.new_spec, RplCmd.new_spec]
    dsimp only
    unfold orchArgsOf
    rw [hpre, hpre2]
  · rw [RplCmd.new_spec]
    dsimp only
    rw [rplCoreOf, preNoDepsOf, hpre, hpost, List.append_assoc, preNoDepsOf, hpre2,
      List.append_assoc]

/-- Claim C4 amended witness. -/
theorem C4_amended_witness :
    (RplCmd.new (["--fix"] ++ "--" :: ["x", "--fix"])).cargo_subcommand
        = (RplCmd.new ["--fix"]).cargo_subcommand
      ∧ (RplCmd.new (["--fix"] ++ "--" :: ["x", "--fix"])).args = (RplCmd.new ["--fix"]).args
      ∧ (RplCmd.new (["--fix"] ++ "--" :: ["x", "--fix"])).rpl_args
          = preNoDepsOf ["--fix"] ++ ["x", "--fix"] ++ synthOf (["--fix"] ++ "--" :: ["x", "--fix"])
      ∧ (synthOf (["--fix"] ++ "--" :: ["x", "--fix"]) = []
          ∨ synthOf (["--fix"] ++ "--" :: ["x", "--fix"]) = ["--no-deps"]) :=
  C4_amended_post_separator_passthrough ["--fix"] ["x", "--fix"] (by decide)

/-- Claim C5: a help flag, a version flag, or `--explain` anywhere in the
raw argument list makes the program terminate early with exit code 0; the
Invocation Builder is never invoked and no subprocess is spawned. -/
theorem C5_early_exit (argv : List String) (st : ExitStatus)
    (h : hasHelpFlag argv = true ∨ hasVersionFlag argv = true
      ∨ ("--explain" : String) ∈ argv) :
    ¬ spawnsCmd argv ∧ mainExitCode argv st = 0 := by
  have hact : ∀ cmd, ¬ mainAction argv = .build cmd := by
    intro cmd hc
    unfold mainAction at hc
    by_cases h1 : hasHelpFlag argv = true
    · rw [if_pos h1] at hc
      exact MainAction.noConfusion hc
    · rw [if_neg h1] at hc
      by_cases h2 : hasVersionFlag argv = true
      · rw [if_pos h2] at hc
        exact MainAction.noConfusion hc
      · rw [if_neg h2] at hc
        rcases h with h | h | h
        · exact h1 h
        · exact h2 h
        · cases hfi : argv.findIdx? (fun a => a == "--explain") with
          | none =>
            have hall := List.findIdx?_eq_none_iff.mp hfi
            have := hall "--explain" h
            simp at this
          | some pos =>
            rw [hfi] at hc
            dsimp only at hc
            cases hnth : argv[pos + 1]? with
            | some lint =>
              rw [hnth] at hc
              exact MainAction.noConfusion hc
            | none =>
              rw [hnth] at hc
              exact MainAction.noConfusion hc
  refine ⟨fun hsp => ?_, ?_⟩
  · obtain ⟨cmd, hc⟩ := hsp
    exact hact cmd hc
  · unfold mainExitCode
    cases hma : mainAction argv with
    | build cmd => exact absurd hma (hact cmd)
    | showHelp => rfl
    | showVersion => rfl
    | explainLint s => rfl

/-- Claim C5 witness. -/
theorem C5_witness : ¬ spawnsCmd ["-h"] ∧ mainExitCode ["-h"] ⟨some 3⟩ = 0 :=
  C5_early_exit ["-h"] ⟨some 3⟩ (Or.inl (by decide))

/-- Claim C6: the exit code is 0 on subprocess success and on every
early-exit path; a subprocess exit code is propagated unchanged; and an
abnormal termination with no exit code yields the sentinel -1. -/
theorem C6_exit_codes (argv : List String) (st : ExitStatus) :
    (st.code = some 0 → mainExitCode argv st = 0)
      ∧ (¬ spawnsCmd argv → mainExitCode argv st = 0)
      ∧ (spawnsCmd argv → ∀ c : Int, st.code = some c → mainExitCode argv st = c)
      ∧ (spawnsCmd argv → st.code = none → mainExitCode argv st = -1) := by
  by_cases hsp : spawnsCmd argv
  · obtain ⟨cmd, hact⟩ := hsp
    have hrun : mainExitCode argv st
        = match processResult st with
          | .ok _ => 0
          | .error c => c := by
      unfold mainExitCode
      rw [hact]
    refine ⟨?_, ?_, ?_, ?_⟩
    · intro hc
      rw [hrun]
      unfold processResult ExitStatus.success
      rw [hc]
      rfl
    · intro hns
      exact absurd ⟨cmd, hact⟩ hns
    · intro _ c hc
      rw [hrun]
      unfold processResult ExitStatus.success
      rw [hc]
      by_cases h0 : c = 0
      · subst h0
        rfl
      · have hne : ¬ ((some c == some (0 : Int)) = true) := by simp [h0]
        rw [if_neg hne]
        rfl
    · intro _ hc
      rw [hrun]
      unfold processResult ExitStatus.success
      rw [hc]
      rfl
  · have h0 : mainExitCode argv st = 0 := by
      unfold mainExitCode
      cases hact : mainAction argv with
      | build cmd => exact absurd ⟨cmd, hact⟩ hsp
      | showHelp => rfl
      | showVersion => rfl
      | explainLint s => rfl
    exact ⟨fun _ => h0, fun _ => h0, fun hsp2 => absurd hsp2 hsp, fun hsp2 => absurd hsp2 hsp⟩

/-- Claim C6 witness. -/
theorem C6_witness :
    mainExitCode ["cargo", "rpl", "foo"] ⟨some 0⟩ = 0
      ∧ mainExitCode ["-h"] ⟨some 5⟩ = 0
      ∧ mainExitCode ["cargo", "rpl", "foo"] ⟨some 7⟩ = 7
      ∧ mainExitCode ["cargo", "rpl", "foo"] ⟨none⟩ = -1 := by
  have hsp : spawnsCmd ["cargo", "rpl", "foo"] := ⟨RplCmd.new ["foo"], rfl⟩
  have hns : ¬ spawnsCmd ["-h"] := by
    rintro ⟨cmd, hc⟩
    rw [show mainAction ["-h"] = MainAction.showHelp from rfl] at hc
    exact MainAction.noConfusion hc
  refine ⟨(C6_exit_codes ["cargo", "rpl", "foo"] ⟨some 0⟩).1 rfl,
    (C6_exit_codes ["-h"] ⟨some 5⟩).2.1 hns,
    (C6_exit_codes ["cargo", "rpl", "foo"] ⟨some 7⟩).2.2.1 hsp 7 rfl,
    (C6_exit_codes ["cargo", "rpl", "foo"] ⟨none⟩).2.2.2 hsp rfl⟩

/-- Claim C9: when several early-exit flags are present, help wins over
version and version wins over `--explain`; in particular any list
containing both `--help` and `--version` shows help. -/
theorem C9_flag_precedence (argv : List String) :
    (hasHelpFlag argv = true → mainAction argv = .showHelp)
      ∧ (hasHelpFlag argv = false → hasVersionFlag argv = true →
          mainAction argv = .showVersion)
      ∧ (("--help" : String) ∈ argv → ("--version" : String) ∈ argv →
          mainAction argv = .showHelp) := by
  refine ⟨?_, ?_, ?_⟩
  · intro h
    unfold mainAction
    rw [if_pos h]
  · intro h1 h2
    unfold mainAction
    rw [if_neg (by simp [h1]), if_pos h2]
  · intro hh _
    have hf : hasHelpFlag argv = true := by
      unfold hasHelpFlag
      rw [List.any_eq_true]
      exact ⟨"--help", hh, by decide⟩
    unfold mainAction
    rw [if_pos hf]

/-- Claim C9 witness. -/
theorem C9_witness :
    mainAction ["--help", "--version"] = MainAction.showHelp
      ∧ mainAction ["--version", "--explain"] = MainAction.showVersion :=
  ⟨(C9_flag_precedence ["--help", "--version"]).2.2 (by decide) (by decide),
   (C9_flag_precedence ["--version", "--explain"]).2.1 (by decide) (by decide)⟩

/-- Claim C8 counterexample: the list contains `--explain` with the
lint-name token "FOO" right after it, yet the program shows help (the
help flag later in the list takes precedence) instead of normalizing the
lint name. -/
theorem C8_counterexample :
    (["cargo", "rpl", "--explain", "FOO", "--help"] : List String).findIdx?
        (fun a => a == "--explain") = some 2
      ∧ (["cargo", "rpl", "--explain", "FOO", "--help"] : List String)[2 + 1]? = some "FOO"
      ∧ mainAction ["cargo", "rpl", "--explain", "FOO", "--help"] = MainAction.showHelp
      ∧ ¬ mainAction ["cargo", "rpl", "--explain", "FOO", "--help"]
          = MainAction.explainLint (asciiLowercase "FOO") := by
  decide

/-- Claim C8 (amended): for an argument list containing `--explain` and
no help or version flag: when a token follows the first `--explain` it is
case-folded to lowercase and the run terminates with success; when no
token follows, help is shown instead, still with success — never an
error. -/
theorem C8_amended_explain (argv : List String) (st : ExitStatus) (pos : Nat)
    (hh : hasHelpFlag argv = false) (hv : hasVersionFlag argv = false)
    (hpos : argv.findIdx? (fun a => a == "--explain") = some pos) :
    (∀ lint, argv[pos + 1]? = some lint →
        mainAction argv = .explainLint (asciiLowercase lint))
      ∧ (argv[pos + 1]? = none → mainAction argv = .showHelp)
      ∧ mainExitCode argv st = 0 := by
  have hnh : ¬ (hasHelpFlag argv = true) := by simp [hh]
  have hnv : ¬ (hasVersionFlag argv = true) := by simp [hv]
  refine ⟨?_, ?_, ?_⟩
  · intro lint hl
    unfold mainAction
    rw [if_neg hnh, if_neg hnv, hpos]
    dsimp only
    rw [hl]
  · intro hl
    unfold mainAction
    rw [if_neg hnh, if_neg hnv, hpos]
    dsimp only
    rw [hl]
  · unfold mainExitCode mainAction
    rw [if_neg hnh, if_neg hnv, hpos]
    dsimp only
    cases hl : argv[pos + 1]? with
    | some lint => rfl
    | none => rfl

/-- Claim C8 amended witness. -/
theorem C8_amended_witness :
    mainAction ["--explain", "ABC"] = MainAction.explainLint (asciiLowercase "ABC")
      ∧ mainExitCode ["--explain", "ABC"] ⟨some 9⟩ = 0
      ∧ asciiLowercase "ABC" = "abc"
      ∧ mainAction ["--explain"] = MainAction.showHelp := by
  have h := C8_amended_explain ["--explain", "ABC"] ⟨some 9⟩ 0 (by decide) (by decide) (by decide)
  have h2 := C8_amended_explain ["--explain"] ⟨some 9⟩ 0 (by decide) (by decide) (by decide)
  exact ⟨h.1 "ABC" rfl, h.2.2, by decide, h2.2.1 rfl⟩

/-- `serializeChars` in recursive form. -/
def serializeCharsRec : List (List Char) → List Char
  | [] => []
  | e :: r => e ++ sepTok ++ serializeCharsRec r

theorem serializeChars_foldl (l : List (List Char)) :
    ∀ acc : List Char,
      l.foldl (fun s arg => s ++ arg ++ sepTok) acc = acc ++ serializeCharsRec l := by
  induction l with
  | nil =>
    intro acc
    simp [serializeCharsRec]
  | cons e r ih =>
    intro acc
    rw [List.foldl_cons, ih, serializeCharsRec]
    simp [List.append_assoc]

theorem serializeChars_eq_rec (l : List (List Char)) :
    serializeChars l = serializeCharsRec l := by
  unfold serializeChars
  rw [serializeChars_foldl]
  simp

theorem serializeRplArgs_data (l : List String) :
    (serializeRplArgs l).data = serializeChars (l.map String.data) := by
  unfold serializeRplArgs serializeChars
  suffices h : ∀ acc : String,
      (l.foldl (fun s arg => s ++ arg ++ "__RPL_HACKERY__") acc).data
        = (l.map String.data).foldl (fun s arg => s ++ arg ++ sepTok) acc.data by
    exact h ""
  induction l with
  | nil =>
    intro acc
    simp
  | cons e r ih =>
    intro acc
    rw [List.foldl_cons, List.map_cons, List.foldl_cons, ih, String.data_append,
      String.data_append, show ("__RPL_HACKERY__" : String).data = sepTok from rfl]

theorem takeWhile_append_underscore (e t : List Char) (h : '_' ∉ e) :
    ((e ++ '_' :: t).takeWhile fun c => ¬ c = '_') = e := by
  induction e with
  | nil =>
    rw [List.nil_append, List.takeWhile_cons_of_neg (by simp)]
  | cons c e2 ih =>
    have hc : ¬ c = '_' := fun hh => h (hh ▸ List.mem_cons_self c e2)
    rw [List.cons_append, List.takeWhile_cons_of_pos (by simp [hc]),
      ih fun hm => h (List.mem_cons_of_mem c hm)]

theorem drop_length_append (e t : List Char) (k : Nat) :
    (e ++ t).drop (e.length + k) = t.drop k := by
  induction e with
  | nil => simp
  | cons c e2 ih =>
    rw [List.cons_append, List.length_cons]
    have harith : e2.length + 1 + k = (e2.length + k) + 1 := by omega
    rw [harith, List.drop_succ_cons, ih]

theorem decodeRpl_serializeChars (ds : List (List Char))
    (h : ∀ e ∈ ds, e ≠ [] ∧ '_' ∉ e) :
    decodeRpl (serializeChars ds) = ds := by
  rw [serializeChars_eq_rec]
  induction ds with
  | nil =>
    rw [serializeCharsRec, decodeRpl]
    rfl
  | cons e r ih =>
    obtain ⟨he, hu⟩ := h e (List.mem_cons_self e r)
    have hrest := ih fun x hx => h x (List.mem_cons_of_mem e hx)
    rw [serializeCharsRec]
    have hshape : e ++ sepTok ++ serializeCharsRec r
        = e ++ '_' :: (['_', 'R', 'P', 'L', '_', 'H', 'A', 'C', 'K', 'E', 'R', 'Y', '_', '_']
            ++ serializeCharsRec r) := by
      rw [List.append_assoc]
      rfl
    rw [hshape, decodeRpl]
    have hne : ¬ (e ++ '_' :: (['_', 'R', 'P', 'L', '_', 'H', 'A', 'C', 'K', 'E', 'R', 'Y', '_', '_']
        ++ serializeCharsRec r) = []) := by simp
    rw [dif_neg hne, takeWhile_append_underscore _ _ hu]
    have hdrop : (e ++ '_' :: (['_', 'R', 'P', 'L', '_', 'H', 'A', 'C', 'K', 'E', 'R', 'Y', '_', '_']
        ++ serializeCharsRec r)).drop (e.length + 15) = serializeCharsRec r := by
      rw [drop_length_append]
      rfl
    rw [hdrop, hrest]

/-- Claim C7 counterexample: two distinct analysis argument lists, both
with non-empty entries that do not contain the separator substring,
serialize to the very same `RPL_ARGS` string — so no reconstruction
function can recover the exact ordered list, and splitting cannot be a
left inverse of serialization on the claimed domain. -/
theorem C7_counterexample :
    serializeRplArgs ["a", "RPL_HACKERY__b"] = serializeRplArgs ["a__RPL_HACKERY", "b"]
      ∧ (["a", "RPL_HACKERY__b"] : List String) ≠ ["a__RPL_HACKERY", "b"]
      ∧ sepFreeArgs ["a", "RPL_HACKERY__b"]
      ∧ sepFreeArgs ["a__RPL_HACKERY", "b"]
      ∧ ¬ serializationInvertible := by
  have hser : serializeRplArgs ["a", "RPL_HACKERY__b"]
      = serializeRplArgs ["a__RPL_HACKERY", "b"] := rfl
  have hne : (["a", "RPL_HACKERY__b"] : List String) ≠ ["a__RPL_HACKERY", "b"] := by decide
  have hv1 : sepFreeArgs ["a", "RPL_HACKERY__b"] := by
    unfold sepFreeArgs
    decide
  have hv2 : sepFreeArgs ["a__RPL_HACKERY", "b"] := by
    unfold sepFreeArgs
    decide
  refine ⟨hser, hne, hv1, hv2, ?_⟩
  rintro ⟨g, hg⟩
  have h1 := hg _ hv1
  have h2 := hg _ hv2
  rw [hser] at h1
  exact hne (h1.symm.trans h2)

/-- Claim C7 (amended): the separator-placing serialization of
`into_std_cmd` is invertible on the smaller domain of lists whose entries
are non-empty and contain no underscore character (such entries in
particular never contain the separator): decoding by maximal
underscore-free runs recovers the exact ordered list.  On the claimed
domain — entries merely free of the full separator substring — inversion
is impossible, because the separator overlaps itself. -/
theorem C7_amended_roundtrip (l : List String)
    (h : ∀ e ∈ l, e ≠ "" ∧ '_' ∉ e.data) :
    decodeRplStr (serializeRplArgs l) = l := by
  unfold decodeRplStr
  rw [serializeRplArgs_data, decodeRpl_serializeChars (l.map String.data) ?hvalid]
  · rw [List.map_map]
    have hid : (String.mk ∘ String.data) = id := funext fun s => rfl
    rw [hid, List.map_id]
  case hvalid =>
    intro e he
    obtain ⟨x, hx, hxe⟩ := List.mem_map.mp he
    obtain ⟨h1, h2⟩ := h x hx
    subst hxe
    exact ⟨fun hc => h1 (congrArg String.mk hc), h2⟩

/-- Claim C7 amended witness. -/
theorem C7_amended_witness :
    decodeRplStr (serializeRplArgs ["abc", "de"]) = ["abc", "de"] :=
  C7_amended_roundtrip ["abc", "de"] (by decide)
